import Mathlib

/-!
# Verification of `streamlit_app.py` (fayamonkey/agentlab2)

A shallow embedding of the single-file Streamlit research-lab application,
together with theorems about its behaviour.  The embedding models:

* JSON values and Python's `json.dumps(..., indent=n)` serialization
  (with `ensure_ascii=True` escaping) and `json.load` parsing;
* the session state (`research_results`, `api_key`, `current_view`,
  `selected_research`) as an explicit structure;
* `conduct_research`, the research-form submission handler, the
  `view_research` renderer and the Markdown export;
* the external `AgentLaboratory` call as an `Except String Json` outcome
  (`.ok r` = library returned `r`; `.error e` = library raised an exception
  whose message is `e`), and the wall clock as an explicit `DateTime`.

Side effects (UI error messages, whether the library was invoked, whether a
save was attempted) are reified into effect records so that claims about
them can be stated.
-/

namespace AgentLab

/-! ## JSON values

Python JSON numbers may be floats; the embedding restricts numbers to the
integers (floating point is outside the scope of the model).  Objects are
insertion-ordered key/value lists, matching Python `dict` semantics. -/

inductive Json where
  | null : Json
  | bool (b : Bool) : Json
  | num (n : Int) : Json
  | str (s : String) : Json
  | arr (elems : List Json) : Json
  | obj (members : List (String × Json)) : Json

/-! ## Serialization: `json.dumps(v, indent=w)`

Python's `json.dump`/`json.dumps` with a non-`None` `indent` uses item
separator `","` followed by a newline and `indent*level` spaces, key/value
separator `": "`, and `ensure_ascii=True`: every character outside
`0x20..0x7E` is written as a `\uXXXX` escape (a surrogate pair for
characters above `0xFFFF`), with the short escapes `\" \\ \n \t \r \b \f`
for the usual control characters. -/

def hex4 (n : Nat) : List Char :=
  [Nat.digitChar (n / 4096 % 16), Nat.digitChar (n / 256 % 16),
   Nat.digitChar (n / 16 % 16), Nat.digitChar (n % 16)]

def escChar (c : Char) : List Char :=
  if c = '"' then ['\\', '"']
  else if c = '\\' then ['\\', '\\']
  else if c = '\n' then ['\\', 'n']
  else if c = '\t' then ['\\', 't']
  else if c = '\r' then ['\\', 'r']
  else if c = '\x08' then ['\\', 'b']
  else if c = '\x0c' then ['\\', 'f']
  else if c.toNat < 0x20 ∨ 0x7E < c.toNat then
    if c.toNat < 0x10000 then '\\' :: 'u' :: hex4 c.toNat
    else
      ('\\' :: 'u' :: hex4 (0xD800 + (c.toNat - 0x10000) / 0x400)) ++
      ('\\' :: 'u' :: hex4 (0xDC00 + (c.toNat - 0x10000) % 0x400))
  else [c]

def escString : List Char → List Char
  | [] => []
  | c :: cs => escChar c ++ escString cs

def natChars (n : Nat) : List Char :=
  if _h : n < 10 then [Nat.digitChar n]
  else natChars (n / 10) ++ [Nat.digitChar (n % 10)]
  decreasing_by exact Nat.div_lt_self (by omega) (by omega)

def intChars : Int → List Char
  | .ofNat n => natChars n
  | .negSucc m => '-' :: natChars (m + 1)

def indentChars (w lvl : Nat) : List Char := List.replicate (w * lvl) ' '

mutual

def dumpVal (w lvl : Nat) : Json → List Char
  | .null => 'n' :: 'u' :: 'l' :: 'l' :: []
  | .bool true => 't' :: 'r' :: 'u' :: 'e' :: []
  | .bool false => 'f' :: 'a' :: 'l' :: 's' :: 'e' :: []
  | .num n => intChars n
  | .str s => '"' :: (escString s.data ++ ['"'])
  | .arr [] => '[' :: ']' :: []
  | .arr (x :: xs) =>
      '[' :: '\n' :: (indentChars w (lvl + 1) ++ dumpVal w (lvl + 1) x ++
        dumpArrRest w (lvl + 1) xs ++ '\n' :: (indentChars w lvl ++ [']']))
  | .obj [] => '{' :: '}' :: []
  | .obj (kv :: kvs) =>
      '{' :: '\n' :: (indentChars w (lvl + 1) ++ dumpMember w (lvl + 1) kv ++
        dumpObjRest w (lvl + 1) kvs ++ '\n' :: (indentChars w lvl ++ ['}']))

def dumpArrRest (w lvl : Nat) : List Json → List Char
  | x :: xs => ',' :: '\n' :: (indentChars w lvl ++ dumpVal w lvl x ++ dumpArrRest w lvl xs)
  | [] => []

def dumpMember (w lvl : Nat) : String × Json → List Char
  | (k, v) => '"' :: (escString k.data ++ ['"', ':', ' ']) ++ dumpVal w lvl v

def dumpObjRest (w lvl : Nat) : List (String × Json) → List Char
  | [] => []
  | kv :: kvs => ',' :: '\n' :: (indentChars w lvl ++ dumpMember w lvl kv ++ dumpObjRest w lvl kvs)

end

/-- `json.dumps(v, indent=w)` as a Lean `String`. -/
def dumps (w : Nat) (v : Json) : String := String.mk (dumpVal w 0 v)

/-! ## Parsing: `json.load`

A fuel-indexed recursive-descent parser for the JSON grammar as accepted by
Python's `json.load`, restricted to integer numbers (a trailing `.`, `e` or
`E` after the digits makes the parse fail rather than produce a float, and
lone surrogate escapes are rejected since Lean strings cannot hold them).
`loads` runs the parser with enough fuel for any input and requires that
only whitespace follows the document. -/

def isJsonWs (c : Char) : Bool :=
  c == ' ' || c == '\r' || c == '\n' || c == '\t'

def skipWs : List Char → List Char
  | [] => []
  | c :: cs => if isJsonWs c then skipWs cs else c :: cs

def digitVal (c : Char) : Nat := c.toNat - '0'.toNat

def hexVal? (c : Char) : Option Nat :=
  if c.isDigit then some (digitVal c)
  else if 'a' ≤ c ∧ c ≤ 'f' then some (c.toNat + 10 - 'a'.toNat)
  else if 'A' ≤ c ∧ c ≤ 'F' then some (c.toNat + 10 - 'A'.toNat)
  else none

/-- The value of four hex digits. -/
def hex4val? (a b c d : Char) : Option Nat :=
  (hexVal? a).bind fun va => (hexVal? b).bind fun vb => (hexVal? c).bind fun vc =>
    (hexVal? d).map fun vd => va * 4096 + vb * 256 + vc * 16 + vd

mutual

/-- Parse the body of a JSON string after the opening quote, returning the
decoded characters and the input after the closing quote. -/
def parseStrBody : List Char → Option (List Char × List Char)
  | [] => none
  | c :: rest =>
    if c = '"' then some ([], rest)
    else if c = '\\' then parseEscape rest
    else if c.toNat < 0x20 then none
    else (parseStrBody rest).map fun p => (c :: p.1, p.2)

/-- Parse what follows a backslash inside a JSON string. -/
def parseEscape : List Char → Option (List Char × List Char)
  | [] => none
  | e :: rest =>
    if e = '"' then (parseStrBody rest).map fun p => ('"' :: p.1, p.2)
    else if e = '\\' then (parseStrBody rest).map fun p => ('\\' :: p.1, p.2)
    else if e = '/' then (parseStrBody rest).map fun p => ('/' :: p.1, p.2)
    else if e = 'b' then (parseStrBody rest).map fun p => ('\x08' :: p.1, p.2)
    else if e = 'f' then (parseStrBody rest).map fun p => ('\x0c' :: p.1, p.2)
    else if e = 'n' then (parseStrBody rest).map fun p => ('\n' :: p.1, p.2)
    else if e = 'r' then (parseStrBody rest).map fun p => ('\r' :: p.1, p.2)
    else if e = 't' then (parseStrBody rest).map fun p => ('\t' :: p.1, p.2)
    else if e = 'u' then parseHexEsc rest
    else none

/-- Parse the four hex digits of a `\uXXXX` escape and whatever follows. -/
def parseHexEsc : List Char → Option (List Char × List Char)
  | a :: b :: c :: d :: rest3 =>
    (hex4val? a b c d).bind fun n =>
      if 0xD800 ≤ n ∧ n < 0xDC00 then parseLowSurrogate n rest3
      else if 0xDC00 ≤ n ∧ n < 0xE000 then none
      else (parseStrBody rest3).map fun q => (Char.ofNat n :: q.1, q.2)
  | _ => none

/-- After a high-surrogate escape, parse the matching low-surrogate escape
and combine the pair into one character. -/
def parseLowSurrogate (hi : Nat) : List Char → Option (List Char × List Char)
  | b1 :: b2 :: a :: b :: c :: d :: rest =>
    if b1 = '\\' ∧ b2 = 'u' then
      (hex4val? a b c d).bind fun m =>
        if 0xDC00 ≤ m ∧ m < 0xE000 then
          (parseStrBody rest).map fun q =>
            (Char.ofNat (0x10000 + (hi - 0xD800) * 0x400 + (m - 0xDC00)) :: q.1, q.2)
        else none
    else none
  | _ => none

end

def spanDigits : List Char → List Char × List Char
  | [] => ([], [])
  | c :: rest =>
    if c.isDigit then
      let p := spanDigits rest
      (c :: p.1, p.2)
    else ([], c :: rest)

def digitsToNat (acc : Nat) : List Char → Nat
  | [] => acc
  | c :: rest => digitsToNat (acc * 10 + digitVal c) rest

/-- Parse an unsigned integer literal: at least one digit, no redundant
leading zero, and not the integer part of a float. -/
def parseNatPart (s : List Char) : Option (Nat × List Char) :=
  let p := spanDigits s
  if p.1 = [] then none
  else if p.1.head? = some '0' ∧ p.1.tail ≠ [] then none
  else if p.2.head? = some '.' ∨ p.2.head? = some 'e' ∨ p.2.head? = some 'E' then none
  else some (digitsToNat 0 p.1, p.2)

def parseIntFrom (s : List Char) : Option (Int × List Char) :=
  if s.head? = some '-' then
    (parseNatPart s.tail).map fun p => (-(p.1 : Int), p.2)
  else
    (parseNatPart s).map fun p => ((p.1 : Int), p.2)

/-- Match an exact sequence of characters, returning what follows it. -/
def expectChars : List Char → List Char → Option (List Char)
  | [], s => some s
  | _ :: _, [] => none
  | k :: ks, c :: cs => if c = k then expectChars ks cs else none

mutual

def parseVal : Nat → List Char → Option (Json × List Char)
  | 0, _ => none
  | f + 1, s => parseValAt f (skipWs s)

def parseValAt (f : Nat) : List Char → Option (Json × List Char)
  | [] => none
  | c :: rest =>
    if c = 'n' then (expectChars ['u', 'l', 'l'] rest).map fun r => (.null, r)
    else if c = 't' then (expectChars ['r', 'u', 'e'] rest).map fun r => (.bool true, r)
    else if c = 'f' then (expectChars ['a', 'l', 's', 'e'] rest).map fun r => (.bool false, r)
    else if c = '"' then
      (parseStrBody rest).map fun p => (.str (String.mk p.1), p.2)
    else if c = '[' then
      let r := skipWs rest
      if r.head? = some ']' then some (.arr [], r.tail)
      else (parseElems f r).map fun p => (.arr p.1, p.2)
    else if c = '{' then
      let r := skipWs rest
      if r.head? = some '}' then some (.obj [], r.tail)
      else (parseMembers f r).map fun p => (.obj p.1, p.2)
    else if c = '-' ∨ c.isDigit then
      (parseIntFrom (c :: rest)).map fun p => (.num p.1, p.2)
    else none

def parseElems : Nat → List Char → Option (List Json × List Char)
  | 0, _ => none
  | f + 1, s =>
    (parseVal f s).bind fun p =>
      let r' := skipWs p.2
      if r'.head? = some ',' then
        (parseElems f r'.tail).map fun q => (p.1 :: q.1, q.2)
      else if r'.head? = some ']' then some ([p.1], r'.tail)
      else none

def parseMembers : Nat → List Char → Option (List (String × Json) × List Char)
  | 0, _ => none
  | f + 1, s =>
    let s' := skipWs s
    if s'.head? = some '"' then
      (parseStrBody s'.tail).bind fun p =>
        let r1 := skipWs p.2
        if r1.head? = some ':' then
          (parseVal f r1.tail).bind fun q =>
            let r4 := skipWs q.2
            if r4.head? = some ',' then
              (parseMembers f r4.tail).map fun t => ((String.mk p.1, q.1) :: t.1, t.2)
            else if r4.head? = some '}' then some ([(String.mk p.1, q.1)], r4.tail)
            else none
        else none
    else none

end

/-- `json.load` on a whole document (`none` = the parse raised): parse one
value with ample fuel and require that only whitespace follows it. -/
def loads (s : String) : Option Json :=
  (parseVal (s.data.length + 1) s.data).bind fun p =>
    if skipWs p.2 = [] then some p.1 else none

/-- The load-on-init path (lines 20–27): parse the file content; any
exception is swallowed and the store stays the empty dict from line 18. -/
def load_on_init (content : String) : Json :=
  (loads content).getD (.obj [])

/-- What may legally follow a dumped number so that the integer parser
stops exactly at its end: no digit and no float continuation. -/
def numOk (rest : List Char) : Prop :=
  ∀ c, rest.head? = some c → (c.isDigit = false ∧ c ≠ '.' ∧ c ≠ 'e' ∧ c ≠ 'E')

/-! ## Fuel requirements of the parser -/

mutual

def needV : Json → Nat
  | .arr (x :: xs) => 1 + needE x xs
  | .obj (kv :: kvs) => 1 + needM kv kvs
  | .arr [] => 1
  | .obj [] => 1
  | .num _ => 1
  | .str _ => 1
  | .null => 1
  | .bool _ => 1
  termination_by v => sizeOf v
  decreasing_by
    all_goals simp
    all_goals omega

def needE : Json → List Json → Nat
  | x, [] => 1 + needV x
  | x, y :: ys => 1 + needV x + needE y ys
  termination_by x xs => sizeOf x + sizeOf xs
  decreasing_by
    all_goals simp
    all_goals omega

def needM : String × Json → List (String × Json) → Nat
  | (_, v), [] => 1 + needV v
  | (_, v), kv' :: kvs => 1 + needV v + needM kv' kvs
  termination_by kv kvs => sizeOf kv + sizeOf kvs
  decreasing_by
    all_goals simp
    all_goals omega

end

/-! ## Python string helpers used by the app -/

/-- The characters stripped by Python's `str.strip()` (ASCII whitespace). -/
def pyIsSpace (c : Char) : Bool :=
  c == ' ' || c == '\x0b' || c == '\x0c' || c == '\r' || c == '\n' || c == '\t'

/-- Python `str.strip()`: drop whitespace from both ends. -/
def pyStrip (s : String) : String :=
  String.mk (((s.data.dropWhile pyIsSpace).reverse.dropWhile pyIsSpace).reverse)

/-- Python `str.split(sep)` for a one-character separator: split at every
occurrence, keeping empty pieces (`"".split(",") == [""]`). -/
def pySplitChars (sep : Char) : List Char → List (List Char)
  | [] => [[]]
  | c :: rest =>
    let r := pySplitChars sep rest
    if c = sep then [] :: r
    else
      match r with
      | g :: gs => (c :: g) :: gs
      | [] => [[c]]

def pySplit (s : String) (sep : Char) : List String :=
  (pySplitChars sep s.data).map String.mk

/-! ## The data model of the app

A stored research record (`st.session_state.research_results[timestamp]`)
and the research store, an insertion-ordered mapping from timestamp strings
to records (a Python `dict`). -/

structure ResearchRecord where
  topic : String
  focus_areas : String
  results : Json

abbrev ResearchStore := List (String × ResearchRecord)

/-- Python `dict` lookup `m[k]` (`none` = `KeyError`). -/
def pyLookup {α : Type} (m : List (String × α)) (k : String) : Option α :=
  match m with
  | [] => none
  | (k', v) :: rest => if k' = k then some v else pyLookup rest k

/-- Python `dict` assignment `m[k] = v`: update in place if the key exists,
otherwise append at the end (insertion order). -/
def pyDictInsert {α : Type} (m : List (String × α)) (k : String) (v : α) :
    List (String × α) :=
  match m with
  | [] => [(k, v)]
  | (k', v') :: rest => if k' = k then (k, v) :: rest else (k', v') :: pyDictInsert rest k v

/-- The JSON image of one research record, with its three keys in the
insertion order of the dict literal at lines 103–107 of the source. -/
def recordToJson (r : ResearchRecord) : Json :=
  .obj [("topic", .str r.topic), ("focus_areas", .str r.focus_areas), ("results", r.results)]

/-- The JSON image of the whole store, as `json.dump` receives it. -/
def storeToJson (store : ResearchStore) : Json :=
  .obj (store.map fun kv => (kv.1, recordToJson kv.2))

/-- Verification-side inverse of `recordToJson`: read one stored record
back out of its JSON image. -/
def jsonToRecord : Json → Option ResearchRecord
  | .obj [(k1, .str t), (k2, .str f), (k3, res)] =>
    if k1 = "topic" ∧ k2 = "focus_areas" ∧ k3 = "results" then some ⟨t, f, res⟩
    else none
  | _ => none

/-- Verification-side inverse of `storeToJson` on object members. -/
def decodeMembers : List (String × Json) → Option ResearchStore
  | [] => some []
  | (k, v) :: rest =>
    (jsonToRecord v).bind fun r => (decodeMembers rest).map fun s => (k, r) :: s

/-- Verification-side inverse of `storeToJson`. -/
def jsonToStore : Json → Option ResearchStore
  | .obj members => decodeMembers members
  | _ => none

/-! ## Session state -/

structure SessionState where
  research_results : ResearchStore
  api_key : Option String
  current_view : String
  selected_research : Option String

/-- `save_results()`: the bytes written to `research_results.json`
(`json.dump(st.session_state.research_results, f, indent=4)`).  The write
itself is best-effort (any exception is swallowed); this is the content
whenever the write succeeds. -/
def save_results (st : SessionState) : String :=
  dumps 4 (storeToJson st.research_results)

/-! ## Wall clock and timestamp keys -/

/-- A wall-clock reading, standing for `datetime.now()`. -/
structure DateTime where
  year : Nat
  month : Nat
  day : Nat
  hour : Nat
  minute : Nat
  second : Nat

def pad2 (n : Nat) : List Char := [Nat.digitChar (n / 10 % 10), Nat.digitChar (n % 10)]

def pad4 (n : Nat) : List Char :=
  [Nat.digitChar (n / 1000 % 10), Nat.digitChar (n / 100 % 10),
   Nat.digitChar (n / 10 % 10), Nat.digitChar (n % 10)]

/-- `datetime.now().strftime("%Y-%m-%d %H:%M:%S")` for in-range field values
(four-digit year, two-digit month/day/hour/minute/second, zero-padded). -/
def formatTimestamp (d : DateTime) : String :=
  String.mk (pad4 d.year ++ '-' :: pad2 d.month ++ '-' :: pad2 d.day ++
    ' ' :: pad2 d.hour ++ ':' :: pad2 d.minute ++ ':' :: pad2 d.second)

/-- Checks the shape `YYYY-MM-DD HH:MM:SS`: nineteen characters, digits in
the date/time positions and the literal separators `-`, space, `:`. -/
def isTimestampShape (s : String) : Bool :=
  match s.data with
  | [y1, y2, y3, y4, a, m1, m2, b, d1, d2, c, h1, h2, e, n1, n2, f, s1, s2] =>
      y1.isDigit && y2.isDigit && y3.isDigit && y4.isDigit && (a == '-') &&
      m1.isDigit && m2.isDigit && (b == '-') && d1.isDigit && d2.isDigit &&
      (c == ' ') && h1.isDigit && h2.isDigit && (e == ':') && n1.isDigit &&
      n2.isDigit && (f == ':') && s1.isDigit && s2.isDigit
  | _ => false

/-! ## Research dispatch (`conduct_research`, lines 79–111) -/

/-- The `task_notes` dictionary built at lines 89–96. -/
structure TaskNotes where
  focus_areas : List String
  dataset_size : String
  model_complexity : String
  evaluation_metrics : List String

def buildTaskNotes (focus_areas : String) : TaskNotes :=
  { focus_areas := (pySplit focus_areas ',').map pyStrip
    dataset_size := "small"
    model_complexity := "medium"
    evaluation_metrics := ["accuracy", "perplexity"] }

/-- Observable side effects of one `conduct_research` call. -/
structure DispatchEffects where
  errors : List String
  labCalled : Bool
  labArgs : Option (String × TaskNotes)
  saveAttempted : Bool

/-- `conduct_research(topic, focus_areas)`.  `lab` is the outcome of the
external `AgentLaboratory.conduct_research` call (`.error e` = the library
or its construction raised an exception with message `e`); `now` is the
wall clock read at line 102. -/
def conduct_research (st : SessionState) (topic focus_areas : String)
    (lab : Except String Json) (now : DateTime) :
    SessionState × DispatchEffects × (Bool × String) :=
  if st.api_key.isNone then
    (st, ⟨["Please enter your OpenAI API key in the sidebar first!"], false, none, false⟩,
      (false, "API key required"))
  else
    let task_notes := buildTaskNotes focus_areas
    match lab with
    | .error e =>
        (st, ⟨[], true, some (topic, task_notes), false⟩,
          (false, "Error during research: " ++ e))
    | .ok results =>
        let timestamp := formatTimestamp now
        ({ st with research_results :=
            pyDictInsert st.research_results timestamp ⟨topic, focus_areas, results⟩ },
          ⟨[], true, some (topic, task_notes), true⟩,
          (true, "Research completed successfully!"))

/-! ## The research form (lines 120–133) -/

/-- Observable effects of one form-submission pass. -/
structure FormEffects where
  errors : List String
  successes : List String
  dispatched : Bool

/-- The body of `with st.form("research_form")` for one rerun: `topic` and
`focus_areas` are the widget values, `submitted` the submit-button state. -/
def research_form (st : SessionState) (topic focus_areas : String) (submitted : Bool)
    (lab : Except String Json) (now : DateTime) : SessionState × FormEffects :=
  if submitted then
    if st.api_key.isNone then
      (st, ⟨["Please enter your OpenAI API key in the sidebar first!"], [], false⟩)
    else if topic ≠ "" ∧ focus_areas ≠ "" then
      let res := conduct_research st topic focus_areas lab now
      if res.2.2.1 then (res.1, ⟨res.2.1.errors, [res.2.2.2], true⟩)
      else (res.1, ⟨res.2.1.errors ++ [res.2.2.2], [], true⟩)
    else (st, ⟨[], [], false⟩)
  else (st, ⟨[], [], false⟩)

/-! ## The results viewer (lines 136–158) -/

inductive ViewOutcome where
  | nothingSelected : ViewOutcome
  | keyError (ts : String) : ViewOutcome
  | rendered (header focus : String) (results : Json) : ViewOutcome

/-- The `view_research` branch: render the record selected in the sidebar.
`nothingSelected` is the `hasattr` guard failing, `keyError` the unguarded
dict access at line 138 raising. -/
def view_research (st : SessionState) : ViewOutcome :=
  match st.selected_research with
  | none => .nothingSelected
  | some ts =>
      match pyLookup st.research_results ts with
      | none => .keyError ts
      | some r => .rendered ("Research Results: " ++ r.topic) r.focus_areas r.results

/-- The Markdown content built at lines 149–151. -/
def export_markdown (r : ResearchRecord) : String :=
  "# Research Results: " ++ r.topic ++ "\n\n" ++
    ("## Focus Areas\n" ++ r.focus_areas ++ "\n\n") ++
    ("## Results\n```json\n" ++ dumps 2 r.results ++ "\n```")

/-- The download file name built at line 157:
`research_<topic.lower().replace(' ', '_')>.md` (`str.lower` modelled on
ASCII via `Char.toLower`). -/
def export_filename (r : ResearchRecord) : String :=
  "research_" ++ String.mk ((r.topic.data.map Char.toLower).map
    fun c => if c = ' ' then '_' else c) ++ ".md"

/-! # Lemmas

## Digits and characters -/

theorem digitChar_isDigit {n : Nat} (h : n < 10) : (Nat.digitChar n).isDigit = true := by
  interval_cases n <;> decide

theorem digitVal_digitChar {n : Nat} (h : n < 10) : digitVal (Nat.digitChar n) = n := by
  interval_cases n <;> decide

theorem hexVal?_digitChar {n : Nat} (h : n < 16) : hexVal? (Nat.digitChar n) = some n := by
  interval_cases n <;> decide

theorem digitChar_not_ws {n : Nat} (h : n < 10) : isJsonWs (Nat.digitChar n) = false := by
  interval_cases n <;> decide

theorem isDigit_ne {c x : Char} (h : c.isDigit = true) (hx : x.isDigit = false) : c ≠ x :=
  fun e => by subst e; rw [h] at hx; exact Bool.noConfusion hx

theorem string_mk_data (s : String) : String.mk s.data = s := rfl

/-! ## Conditions on what may follow a serialized number -/

theorem numOk_nil : numOk [] := fun _ h => absurd h (by simp)

theorem numOk_cons {c : Char} (t : List Char) (h1 : c.isDigit = false)
    (h2 : c ≠ '.') (h3 : c ≠ 'e') (h4 : c ≠ 'E') : numOk (c :: t) := by
  intro x hx
  simp only [List.head?_cons, Option.some_inj] at hx
  subst hx
  exact ⟨h1, h2, h3, h4⟩

theorem numOk_no_float {rest : List Char} (hr : numOk rest) :
    ¬(rest.head? = some '.' ∨ rest.head? = some 'e' ∨ rest.head? = some 'E') := by
  cases rest with
  | nil => rintro (h | h | h) <;> exact Option.noConfusion h
  | cons c t =>
    rintro (h | h | h) <;>
      simp only [List.head?_cons, Option.some_inj] at h <;> subst h
    · exact (hr '.' rfl).2.1 rfl
    · exact (hr 'e' rfl).2.2.1 rfl
    · exact (hr 'E' rfl).2.2.2 rfl

/-! ## Whitespace skipping -/

theorem skipWs_cons_of_ws {c : Char} (h : isJsonWs c = true) (s : List Char) :
    skipWs (c :: s) = skipWs s := by
  rw [skipWs, if_pos h]

theorem skipWs_cons_of_not {c : Char} (h : isJsonWs c = false) (s : List Char) :
    skipWs (c :: s) = c :: s := by
  rw [skipWs, if_neg (by rw [h]; exact Bool.false_ne_true)]

theorem skipWs_replicate (n : Nat) (s : List Char) :
    skipWs (List.replicate n ' ' ++ s) = skipWs s := by
  induction n with
  | zero => rfl
  | succ k ih => rw [List.replicate_succ, List.cons_append, skipWs_cons_of_ws (by decide), ih]

theorem skipWs_indent (w lvl : Nat) (s : List Char) :
    skipWs (indentChars w lvl ++ s) = skipWs s :=
  skipWs_replicate (w * lvl) s

theorem skipWs_idem (s : List Char) : skipWs (skipWs s) = skipWs s := by
  induction s with
  | nil => rfl
  | cons c cs ih =>
    rcases h : isJsonWs c with hf | ht
    · rw [skipWs_cons_of_not h, skipWs_cons_of_not h]
    · rw [skipWs_cons_of_ws h, ih]

/-! ## The parser is invariant under leading whitespace -/

theorem parseVal_congr (s₁ s₂ : List Char) (h : skipWs s₁ = skipWs s₂) (fuel : Nat) :
    parseVal fuel s₁ = parseVal fuel s₂ := by
  cases fuel with
  | zero => rw [parseVal, parseVal]
  | succ f => rw [parseVal, parseVal, h]

theorem parseElems_congr (s₁ s₂ : List Char) (h : skipWs s₁ = skipWs s₂) (fuel : Nat) :
    parseElems fuel s₁ = parseElems fuel s₂ := by
  cases fuel with
  | zero => rw [parseElems, parseElems]
  | succ f => rw [parseElems, parseElems, parseVal_congr _ _ h]

theorem parseMembers_congr (s₁ s₂ : List Char) (h : skipWs s₁ = skipWs s₂) (fuel : Nat) :
    parseMembers fuel s₁ = parseMembers fuel s₂ := by
  cases fuel with
  | zero => rw [parseMembers, parseMembers]
  | succ f => rw [parseMembers, parseMembers, h]

/-! ## Decimal digit strings -/

theorem natChars_ne_nil (n : Nat) : natChars n ≠ [] := by
  rw [natChars]; split <;> simp

theorem natChars_head (n : Nat) : ∃ d t, natChars n = Nat.digitChar d :: t ∧ d < 10 := by
  induction n using natChars.induct with
  | case1 n h => exact ⟨n, [], by rw [natChars]; simp [h], h⟩
  | case2 n h ih =>
    obtain ⟨d, t, hd, hlt⟩ := ih
    exact ⟨d, t ++ [Nat.digitChar (n % 10)], by rw [natChars]; simp [h, hd], hlt⟩

theorem natChars_digits (n : Nat) : ∀ c ∈ natChars n, c.isDigit = true := by
  induction n using natChars.induct with
  | case1 n h =>
    intro c hc
    rw [natChars] at hc; simp [h] at hc
    subst hc; exact digitChar_isDigit h
  | case2 n h ih =>
    intro c hc
    rw [natChars] at hc; simp [h] at hc
    rcases hc with hc | hc
    · exact ih c hc
    · subst hc; exact digitChar_isDigit (Nat.mod_lt n (by omega))

theorem digitsToNat_append (acc : Nat) (ds es : List Char) :
    digitsToNat acc (ds ++ es) = digitsToNat (digitsToNat acc ds) es := by
  induction ds generalizing acc with
  | nil => rfl
  | cons c cs ih =>
    show digitsToNat (acc * 10 + digitVal c) (cs ++ es) = _
    rw [ih]
    rfl

theorem digitsToNat_natChars (n : Nat) :
    ∀ acc, digitsToNat acc (natChars n) = acc * 10 ^ (natChars n).length + n := by
  induction n using natChars.induct with
  | case1 n h =>
    intro acc
    have hone : natChars n = [Nat.digitChar n] := by rw [natChars]; simp [h]
    rw [hone]
    show acc * 10 + digitVal (Nat.digitChar n) = acc * 10 ^ ([Nat.digitChar n]).length + n
    rw [digitVal_digitChar h]
    simp
  | case2 n h ih =>
    intro acc
    have heq : natChars n = natChars (n / 10) ++ [Nat.digitChar (n % 10)] := by
      rw [natChars]; simp [h]
    rw [heq, digitsToNat_append, ih]
    show (acc * 10 ^ (natChars (n / 10)).length + n / 10) * 10 + digitVal (Nat.digitChar (n % 10)) = _
    rw [digitVal_digitChar (Nat.mod_lt n (by omega))]
    rw [List.length_append, List.length_singleton, pow_succ, ← mul_assoc]
    have hdm := Nat.div_add_mod n 10
    set a := acc * 10 ^ (natChars (n / 10)).length
    omega

theorem digitsToNat_zero_natChars (n : Nat) : digitsToNat 0 (natChars n) = n := by
  rw [digitsToNat_natChars n 0]; simp

theorem spanDigits_cons (c : Char) (rest : List Char) :
    spanDigits (c :: rest) =
      if c.isDigit then (c :: (spanDigits rest).1, (spanDigits rest).2)
      else ([], c :: rest) := rfl

theorem spanDigits_append (ds rest : List Char) (h1 : ∀ c ∈ ds, c.isDigit = true)
    (h2 : ∀ c, rest.head? = some c → c.isDigit = false) :
    spanDigits (ds ++ rest) = (ds, rest) := by
  induction ds with
  | nil =>
    rw [List.nil_append]
    cases rest with
    | nil => rfl
    | cons c t =>
      have hd : ¬(c.isDigit = true) := by rw [h2 c rfl]; exact Bool.noConfusion
      rw [spanDigits_cons, if_neg hd]
  | cons d ds' ih =>
    rw [List.cons_append, spanDigits_cons,
      if_pos (h1 d (List.mem_cons_self d ds')),
      ih (fun c hc => h1 c (List.mem_cons_of_mem d hc))]

theorem natChars_no_leading_zero (n : Nat) (h10 : 10 ≤ n) :
    (natChars n).head? ≠ some '0' := by
  induction n using natChars.induct with
  | case1 n h => omega
  | case2 n h ih =>
    rw [natChars]; simp only [h, dite_false]
    by_cases hq : 10 ≤ n / 10
    · cases hh : natChars (n / 10) with
      | nil => exact absurd hh (natChars_ne_nil _)
      | cons a t =>
        have := ih hq
        rw [hh] at this
        simpa using this
    · have h1 : 1 ≤ n / 10 := (Nat.one_le_div_iff (by omega)).mpr h10
      have h9 : n / 10 < 10 := by omega
      have hone : natChars (n / 10) = [Nat.digitChar (n / 10)] := by
        rw [natChars]; simp [h9]
      rw [hone]
      have : Nat.digitChar (n / 10) ≠ '0' := by
        interval_cases h : (n / 10) <;> decide
      simpa using this

/-! ## Integer literals parse back -/

theorem parseNatPart_natChars (n : Nat) (rest : List Char) (hr : numOk rest) :
    parseNatPart (natChars n ++ rest) = some (n, rest) := by
  have hspan : spanDigits (natChars n ++ rest) = (natChars n, rest) :=
    spanDigits_append _ _ (natChars_digits n) (fun c hc => (hr c hc).1)
  rw [parseNatPart]
  simp only [hspan]
  rw [if_neg (natChars_ne_nil n)]
  rw [if_neg]
  · rw [if_neg (numOk_no_float hr), digitsToNat_zero_natChars]
  · by_cases h10 : 10 ≤ n
    · rintro ⟨hz, _⟩
      exact natChars_no_leading_zero n h10 hz
    · rintro ⟨_, ht⟩
      apply ht
      have hone : natChars n = [Nat.digitChar n] := by
        rw [natChars]; simp [show n < 10 by omega]
      rw [hone]
      rfl

theorem parseIntFrom_intChars (i : Int) (rest : List Char) (hr : numOk rest) :
    parseIntFrom (intChars i ++ rest) = some (i, rest) := by
  cases i with
  | ofNat n =>
    obtain ⟨d, t, hd, hlt⟩ := natChars_head n
    have hhd : (intChars (Int.ofNat n) ++ rest).head? = some (Nat.digitChar d) := by
      show (natChars n ++ rest).head? = _
      rw [hd]; rfl
    rw [parseIntFrom, if_neg]
    · show (parseNatPart (natChars n ++ rest)).map _ = _
      rw [parseNatPart_natChars n rest hr]
      rfl
    · rw [hhd]
      simp only [Option.some_inj]
      exact isDigit_ne (digitChar_isDigit hlt) (by decide)
  | negSucc m =>
    have hc : (intChars (Int.negSucc m) ++ rest).head? = some '-' := rfl
    rw [parseIntFrom, if_pos hc]
    show (parseNatPart (natChars (m + 1) ++ rest)).map _ = _
    rw [parseNatPart_natChars (m + 1) rest hr]
    show some (-((m : Int) + 1), rest) = _
    rw [Int.negSucc_eq]

/-! ## Escaped strings parse back -/

theorem char_valid_nat (c : Char) :
    c.toNat < 55296 ∨ (57343 < c.toNat ∧ c.toNat < 1114112) := by
  have h := c.valid
  simp only [UInt32.isValidChar, Nat.isValidChar] at h
  exact h

theorem hex4val?_of_hex4 {n : Nat} (h : n < 65536) :
    hex4val? (Nat.digitChar (n / 4096 % 16)) (Nat.digitChar (n / 256 % 16))
      (Nat.digitChar (n / 16 % 16)) (Nat.digitChar (n % 16)) = some n := by
  rw [hex4val?,
    hexVal?_digitChar (Nat.mod_lt _ (by omega)),
    hexVal?_digitChar (Nat.mod_lt _ (by omega)),
    hexVal?_digitChar (Nat.mod_lt _ (by omega)),
    hexVal?_digitChar (Nat.mod_lt _ (by omega)),
    Option.some_bind, Option.some_bind, Option.some_bind, Option.map_some']
  congr 1
  omega

set_option maxHeartbeats 2000000 in
theorem parseStrBody_escString (s rest : List Char) :
    parseStrBody (escString s ++ '"' :: rest) = some (s, rest) := by
  induction s with
  | nil =>
    show parseStrBody ('"' :: rest) = _
    rw [parseStrBody, if_pos rfl]
  | cons c cs ih =>
    show parseStrBody ((escChar c ++ escString cs) ++ '"' :: rest) = _
    rw [List.append_assoc, escChar]
    split_ifs with h1 h2 h3 h4 h5 h6 h7 h8 h9
    · subst h1
      simp only [List.append_eq, List.singleton_append, List.cons_append, List.nil_append,
        parseStrBody, parseEscape, Char.reduceEq, reduceIte, ih, Option.map_some']
    · subst h2
      simp only [List.append_eq, List.singleton_append, List.cons_append, List.nil_append,
        parseStrBody, parseEscape, Char.reduceEq, reduceIte, ih, Option.map_some']
    · subst h3
      simp only [List.append_eq, List.singleton_append, List.cons_append, List.nil_append,
        parseStrBody, parseEscape, Char.reduceEq, reduceIte, ih, Option.map_some']
    · subst h4
      simp only [List.append_eq, List.singleton_append, List.cons_append, List.nil_append,
        parseStrBody, parseEscape, Char.reduceEq, reduceIte, ih, Option.map_some']
    · subst h5
      simp only [List.append_eq, List.singleton_append, List.cons_append, List.nil_append,
        parseStrBody, parseEscape, Char.reduceEq, reduceIte, ih, Option.map_some']
    · subst h6
      simp only [List.append_eq, List.singleton_append, List.cons_append, List.nil_append,
        parseStrBody, parseEscape, Char.reduceEq, reduceIte, ih, Option.map_some']
    · subst h7
      simp only [List.append_eq, List.singleton_append, List.cons_append, List.nil_append,
        parseStrBody, parseEscape, Char.reduceEq, reduceIte, ih, Option.map_some']
    · -- Basic-plane character written as a single `\uXXXX` escape
      have hv := char_valid_nat c
      show parseStrBody ('\\' :: 'u' :: Nat.digitChar (c.toNat / 4096 % 16) ::
        Nat.digitChar (c.toNat / 256 % 16) :: Nat.digitChar (c.toNat / 16 % 16) ::
        Nat.digitChar (c.toNat % 16) :: (escString cs ++ '"' :: rest)) = _
      rw [parseStrBody]
      rw [if_neg (by decide), if_pos rfl]
      rw [parseEscape]
      rw [if_neg (by decide), if_neg (by decide), if_neg (by decide), if_neg (by decide),
        if_neg (by decide), if_neg (by decide), if_neg (by decide), if_neg (by decide),
        if_pos rfl]
      rw [parseHexEsc, hex4val?_of_hex4 h9, Option.some_bind]
      rw [if_neg (by omega), if_neg (by omega)]
      rw [ih, Option.map_some', Char.ofNat_toNat]
    · -- Astral-plane character written as a surrogate pair
      have hv := char_valid_nat c
      have hval : c.toNat < 1114112 := by omega
      show parseStrBody ('\\' :: 'u' ::
        Nat.digitChar ((55296 + (c.toNat - 65536) / 1024) / 4096 % 16) ::
        Nat.digitChar ((55296 + (c.toNat - 65536) / 1024) / 256 % 16) ::
        Nat.digitChar ((55296 + (c.toNat - 65536) / 1024) / 16 % 16) ::
        Nat.digitChar ((55296 + (c.toNat - 65536) / 1024) % 16) :: '\\' :: 'u' ::
        Nat.digitChar ((56320 + (c.toNat - 65536) % 1024) / 4096 % 16) ::
        Nat.digitChar ((56320 + (c.toNat - 65536) % 1024) / 256 % 16) ::
        Nat.digitChar ((56320 + (c.toNat - 65536) % 1024) / 16 % 16) ::
        Nat.digitChar ((56320 + (c.toNat - 65536) % 1024) % 16) ::
        (escString cs ++ '"' :: rest)) = _
      rw [parseStrBody]
      rw [if_neg (by decide), if_pos rfl]
      rw [parseEscape]
      rw [if_neg (by decide), if_neg (by decide), if_neg (by decide), if_neg (by decide),
        if_neg (by decide), if_neg (by decide), if_neg (by decide), if_neg (by decide),
        if_pos rfl]
      rw [parseHexEsc,
        hex4val?_of_hex4 (show 55296 + (c.toNat - 65536) / 1024 < 65536 by omega),
        Option.some_bind]
      rw [if_pos (by omega)]
      rw [parseLowSurrogate, if_pos ⟨rfl, rfl⟩,
        hex4val?_of_hex4 (show 56320 + (c.toNat - 65536) % 1024 < 65536 by omega),
        Option.some_bind]
      rw [if_pos (by omega)]
      rw [ih, Option.map_some']
      rw [show 65536 + (55296 + (c.toNat - 65536) / 1024 - 55296) * 1024 +
        (56320 + (c.toNat - 65536) % 1024 - 56320) = c.toNat by omega]
      rw [Char.ofNat_toNat]
    · -- Printable ASCII character written as itself
      push_neg at h8
      show parseStrBody (c :: (escString cs ++ '"' :: rest)) = _
      rw [parseStrBody]
      rw [if_neg h1, if_neg h2, if_neg (by omega)]
      rw [ih, Option.map_some']

/-! ## Serialized values start with a clean character -/

theorem sizeOf_snd_lt {α β : Type} [SizeOf α] [SizeOf β] (p : α × β) :
    sizeOf p.2 < sizeOf p := by
  cases p with
  | mk a b => simp

theorem dumpVal_head (w lvl : Nat) (v : Json) :
    ∃ c t, dumpVal w lvl v = c :: t ∧ isJsonWs c = false ∧ c ≠ ']' ∧ c ≠ '}' ∧ c ≠ ',' := by
  cases v with
  | null => refine ⟨'n', _, by rw [dumpVal], ?_, ?_, ?_, ?_⟩ <;> decide
  | bool b =>
    cases b with
    | true => refine ⟨'t', _, by rw [dumpVal], ?_, ?_, ?_, ?_⟩ <;> decide
    | false => refine ⟨'f', _, by rw [dumpVal], ?_, ?_, ?_, ?_⟩ <;> decide
  | num n =>
    cases n with
    | ofNat m =>
      obtain ⟨d, t, hd, hlt⟩ := natChars_head m
      refine ⟨Nat.digitChar d, t, ?_, digitChar_not_ws hlt,
        isDigit_ne (digitChar_isDigit hlt) (by decide),
        isDigit_ne (digitChar_isDigit hlt) (by decide),
        isDigit_ne (digitChar_isDigit hlt) (by decide)⟩
      rw [dumpVal]
      show natChars m = _
      exact hd
    | negSucc m =>
      refine ⟨'-', _, by rw [dumpVal]; rfl, ?_, ?_, ?_, ?_⟩ <;> decide
  | str s => refine ⟨'"', _, by rw [dumpVal], ?_, ?_, ?_, ?_⟩ <;> decide
  | arr xs =>
    cases xs with
    | nil => refine ⟨'[', _, by rw [dumpVal], ?_, ?_, ?_, ?_⟩ <;> decide
    | cons x xs' => refine ⟨'[', _, by rw [dumpVal], ?_, ?_, ?_, ?_⟩ <;> decide
  | obj kvs =>
    cases kvs with
    | nil => refine ⟨'{', _, by rw [dumpVal], ?_, ?_, ?_, ?_⟩ <;> decide
    | cons kv kvs' => refine ⟨'{', _, by rw [dumpVal], ?_, ?_, ?_, ?_⟩ <;> decide

theorem skipWs_dump (w lvl : Nat) (v : Json) (r : List Char) :
    skipWs (dumpVal w lvl v ++ r) = dumpVal w lvl v ++ r := by
  obtain ⟨c, t, hd, hws, _, _, _⟩ := dumpVal_head w lvl v
  rw [hd, List.cons_append, skipWs_cons_of_not hws]

theorem dumpVal_ne_nil (w lvl : Nat) (v : Json) : dumpVal w lvl v ≠ [] := by
  obtain ⟨c, t, hd, _, _, _, _⟩ := dumpVal_head w lvl v
  rw [hd]
  exact List.cons_ne_nil c t

theorem one_le_needV (v : Json) : 1 ≤ needV v := by
  cases v with
  | null => rw [needV]
  | bool b => rw [needV]
  | num n => rw [needV]
  | str s => rw [needV]
  | arr xs => cases xs <;> rw [needV] <;> omega
  | obj kvs => cases kvs <;> rw [needV] <;> omega

/-! ## Step lemmas for the value parser -/

theorem expectChars_append (ks s : List Char) : expectChars ks (ks ++ s) = some s := by
  induction ks with
  | nil => rw [List.nil_append, expectChars]
  | cons k ks' ih => rw [List.cons_append, expectChars, if_pos rfl, ih]

theorem parseVal_succ (f : Nat) (s : List Char) :
    parseVal (f + 1) s = parseValAt f (skipWs s) := by
  rw [parseVal]

theorem parseValAt_n (f : Nat) (rest : List Char) :
    parseValAt f ('n' :: rest) =
      (expectChars ['u', 'l', 'l'] rest).map fun r => (Json.null, r) := by
  rw [parseValAt, if_pos rfl]

theorem parseValAt_t (f : Nat) (rest : List Char) :
    parseValAt f ('t' :: rest) =
      (expectChars ['r', 'u', 'e'] rest).map fun r => (Json.bool true, r) := by
  rw [parseValAt, if_neg (by decide), if_pos rfl]

theorem parseValAt_f (f : Nat) (rest : List Char) :
    parseValAt f ('f' :: rest) =
      (expectChars ['a', 'l', 's', 'e'] rest).map fun r => (Json.bool false, r) := by
  rw [parseValAt, if_neg (by decide), if_neg (by decide), if_pos rfl]

theorem parseValAt_quote (f : Nat) (rest : List Char) :
    parseValAt f ('"' :: rest) =
      (parseStrBody rest).map fun p => (Json.str (String.mk p.1), p.2) := by
  rw [parseValAt, if_neg (by decide), if_neg (by decide), if_neg (by decide), if_pos rfl]

theorem parseValAt_lbrack (f : Nat) (rest : List Char) :
    parseValAt f ('[' :: rest) =
      if (skipWs rest).head? = some ']' then some (Json.arr [], (skipWs rest).tail)
      else (parseElems f (skipWs rest)).map fun p => (Json.arr p.1, p.2) := by
  rw [parseValAt, if_neg (by decide), if_neg (by decide), if_neg (by decide),
    if_neg (by decide), if_pos rfl]

theorem parseValAt_lbrace (f : Nat) (rest : List Char) :
    parseValAt f ('{' :: rest) =
      if (skipWs rest).head? = some '}' then some (Json.obj [], (skipWs rest).tail)
      else (parseMembers f (skipWs rest)).map fun p => (Json.obj p.1, p.2) := by
  rw [parseValAt, if_neg (by decide), if_neg (by decide), if_neg (by decide),
    if_neg (by decide), if_neg (by decide), if_pos rfl]

theorem parseValAt_digit (f : Nat) {c : Char} (rest : List Char) (h : c.isDigit = true) :
    parseValAt f (c :: rest) =
      (parseIntFrom (c :: rest)).map fun p => (Json.num p.1, p.2) := by
  rw [parseValAt,
    if_neg (isDigit_ne h (by decide)), if_neg (isDigit_ne h (by decide)),
    if_neg (isDigit_ne h (by decide)), if_neg (isDigit_ne h (by decide)),
    if_neg (isDigit_ne h (by decide)), if_neg (isDigit_ne h (by decide)),
    if_pos (Or.inr h)]

theorem parseValAt_minus (f : Nat) (rest : List Char) :
    parseValAt f ('-' :: rest) =
      (parseIntFrom ('-' :: rest)).map fun p => (Json.num p.1, p.2) := by
  rw [parseValAt, if_neg (by decide), if_neg (by decide), if_neg (by decide),
    if_neg (by decide), if_neg (by decide), if_neg (by decide), if_pos (Or.inl rfl)]

/-! ## The dump of a value is long enough to fuel its parse -/

mutual

theorem needV_le (w lvl : Nat) (v : Json) : needV v ≤ (dumpVal w lvl v).length := by
  cases v with
  | null => rw [needV, dumpVal]; decide
  | bool b => cases b <;> (rw [needV, dumpVal]; decide)
  | num n =>
    rw [needV]
    exact List.length_pos.mpr (dumpVal_ne_nil w lvl (.num n))
  | str s =>
    rw [needV]
    exact List.length_pos.mpr (dumpVal_ne_nil w lvl (.str s))
  | arr xs =>
    cases xs with
    | nil => rw [needV, dumpVal]; decide
    | cons x xs' =>
      rw [needV, dumpVal]
      have h1 := needE_le w (lvl + 1) x xs'
      simp only [List.length_cons, List.length_append, List.length_nil,
        indentChars, List.length_replicate]
      omega
  | obj kvs =>
    cases kvs with
    | nil => rw [needV, dumpVal]; decide
    | cons kv kvs' =>
      rw [needV, dumpVal]
      have h1 := needM_le w (lvl + 1) kv kvs'
      simp only [List.length_cons, List.length_append, List.length_nil,
        indentChars, List.length_replicate]
      omega
  termination_by sizeOf v
  decreasing_by
    all_goals simp
    all_goals omega

theorem needE_le (w lvl : Nat) (x : Json) (xs : List Json) :
    needE x xs ≤ (dumpVal w lvl x).length + (dumpArrRest w lvl xs).length + 1 := by
  cases xs with
  | nil =>
    rw [needE, dumpArrRest]
    have h1 := needV_le w lvl x
    simp only [List.length_nil]
    omega
  | cons y ys =>
    rw [needE, dumpArrRest]
    have h1 := needV_le w lvl x
    have h2 := needE_le w lvl y ys
    simp only [List.length_cons, List.length_append, List.length_nil,
      indentChars, List.length_replicate]
    omega
  termination_by sizeOf x + sizeOf xs
  decreasing_by
    all_goals simp
    all_goals omega

theorem needM_le (w lvl : Nat) (kv : String × Json) (kvs : List (String × Json)) :
    needM kv kvs ≤ (dumpMember w lvl kv).length + (dumpObjRest w lvl kvs).length + 1 := by
  cases kv with
  | mk k v =>
    cases kvs with
    | nil =>
      rw [needM, dumpObjRest, dumpMember]
      have h1 := needV_le w lvl v
      simp only [List.length_cons, List.length_append, List.length_nil]
      omega
    | cons kv' kvs' =>
      rw [needM, dumpObjRest, dumpMember]
      have h1 := needV_le w lvl v
      have h2 := needM_le w lvl kv' kvs'
      simp only [List.length_cons, List.length_append, List.length_nil,
        indentChars, List.length_replicate]
      omega
  termination_by sizeOf kv + sizeOf kvs
  decreasing_by
    all_goals simp
    all_goals omega

end

theorem one_le_needE (x : Json) (xs : List Json) : 1 ≤ needE x xs := by
  cases xs <;> rw [needE] <;> omega

theorem one_le_needM (kv : String × Json) (kvs : List (String × Json)) :
    1 ≤ needM kv kvs := by
  cases kvs <;> rw [needM] <;> omega

/-! ## The parser inverts the serializer -/


mutual

theorem parse_dumpVal : ∀ (w lvl : Nat) (v : Json) (rest : List Char) (fuel : Nat),
    needV v ≤ fuel → numOk rest →
    parseVal fuel (dumpVal w lvl v ++ rest) = some (v, rest)
  | w, lvl, v, rest, 0, hf, _ => absurd hf (by have h := one_le_needV v; omega)
  | w, lvl, .null, rest, f + 1, hf, hr => by
    rw [parseVal_succ, skipWs_dump]
    rw [dumpVal]
    simp only [List.cons_append, List.nil_append]
    rw [parseValAt_n]
    have he := expectChars_append ['u', 'l', 'l'] rest
    simp only [List.cons_append, List.nil_append] at he
    rw [he, Option.map_some']
  | w, lvl, .bool true, rest, f + 1, hf, hr => by
    rw [parseVal_succ, skipWs_dump]
    rw [dumpVal]
    simp only [List.cons_append, List.nil_append]
    rw [parseValAt_t]
    have he := expectChars_append ['r', 'u', 'e'] rest
    simp only [List.cons_append, List.nil_append] at he
    rw [he, Option.map_some']
  | w, lvl, .bool false, rest, f + 1, hf, hr => by
    rw [parseVal_succ, skipWs_dump]
    rw [dumpVal]
    simp only [List.cons_append, List.nil_append]
    rw [parseValAt_f]
    have he := expectChars_append ['a', 'l', 's', 'e'] rest
    simp only [List.cons_append, List.nil_append] at he
    rw [he, Option.map_some']
  | w, lvl, .num (.ofNat m), rest, f + 1, hf, hr => by
    rw [parseVal_succ, skipWs_dump]
    rw [dumpVal]
    obtain ⟨d, t, hd, hlt⟩ := natChars_head m
    have hic : intChars (Int.ofNat m) = natChars m := by rw [intChars]
    rw [hic, hd, List.cons_append, parseValAt_digit f _ (digitChar_isDigit hlt)]
    have hp := parseIntFrom_intChars (Int.ofNat m) rest hr
    rw [hic, hd, List.cons_append] at hp
    rw [hp, Option.map_some']
  | w, lvl, .num (.negSucc m), rest, f + 1, hf, hr => by
    rw [parseVal_succ, skipWs_dump]
    rw [dumpVal]
    have hic : intChars (Int.negSucc m) = '-' :: natChars (m + 1) := by rw [intChars]
    rw [hic, List.cons_append, parseValAt_minus]
    have hp := parseIntFrom_intChars (Int.negSucc m) rest hr
    rw [hic, List.cons_append] at hp
    rw [hp, Option.map_some']
  | w, lvl, .str s, rest, f + 1, hf, hr => by
    rw [parseVal_succ, skipWs_dump]
    rw [dumpVal]
    simp only [List.cons_append, List.append_assoc, List.singleton_append, List.nil_append]
    rw [parseValAt_quote, parseStrBody_escString, Option.map_some', string_mk_data]
  | w, lvl, .arr [], rest, f + 1, hf, hr => by
    rw [parseVal_succ, skipWs_dump]
    rw [dumpVal]
    simp only [List.cons_append, List.nil_append]
    rw [parseValAt_lbrack, skipWs_cons_of_not (by decide)]
    simp only [List.head?_cons]
    rw [if_pos trivial]
    simp only [List.tail_cons]
  | w, lvl, .arr (x :: xs'), rest, f + 1, hf, hr => by
    rw [parseVal_succ, skipWs_dump]
    rw [needV] at hf
    rw [dumpVal]
    simp only [List.cons_append, List.append_assoc, List.singleton_append, List.nil_append]
    rw [parseValAt_lbrack]
    rw [skipWs_cons_of_ws (by decide), skipWs_indent, skipWs_dump]
    obtain ⟨c, t, hd, hws, hne1, hne2, hne3⟩ := dumpVal_head w (lvl + 1) x
    rw [if_neg (by rw [hd]; simp only [List.cons_append, List.head?_cons,
      Option.some_inj]; exact hne1)]
    rw [parse_dumpElems w (lvl + 1) x xs' ('\n' :: (indentChars w lvl ++ ']' :: rest))
      rest f (by omega)
      (by rw [skipWs_cons_of_ws (by decide), skipWs_indent,
        skipWs_cons_of_not (by decide)])
      (numOk_cons _ (by decide) (by decide) (by decide) (by decide))]
    rw [Option.map_some']
  | w, lvl, .obj [], rest, f + 1, hf, hr => by
    rw [parseVal_succ, skipWs_dump]
    rw [dumpVal]
    simp only [List.cons_append, List.nil_append]
    rw [parseValAt_lbrace, skipWs_cons_of_not (by decide)]
    simp only [List.head?_cons]
    rw [if_pos trivial]
    simp only [List.tail_cons]
  | w, lvl, .obj ((k, v) :: kvs'), rest, f + 1, hf, hr => by
    rw [parseVal_succ, skipWs_dump]
    rw [needV] at hf
    rw [dumpVal]
    simp only [List.cons_append, List.append_assoc, List.singleton_append, List.nil_append]
    rw [parseValAt_lbrace]
    rw [skipWs_cons_of_ws (by decide), skipWs_indent]
    have hm : dumpMember w (lvl + 1) (k, v) =
        '"' :: (escString k.data ++ ['"', ':', ' ']) ++ dumpVal w (lvl + 1) v := by
      rw [dumpMember]
    rw [hm]
    simp only [List.cons_append, List.append_assoc, List.nil_append]
    rw [skipWs_cons_of_not (by decide)]
    rw [if_neg (by simp only [List.head?_cons, Option.some_inj]; decide)]
    have hmem := parse_dumpMembers w (lvl + 1) (k, v) kvs'
      ('\n' :: (indentChars w lvl ++ '}' :: rest)) rest f (by omega)
      (by rw [skipWs_cons_of_ws (by decide), skipWs_indent,
        skipWs_cons_of_not (by decide)])
      (numOk_cons _ (by decide) (by decide) (by decide) (by decide))
    rw [hm] at hmem
    simp only [List.cons_append, List.append_assoc, List.nil_append] at hmem
    rw [hmem, Option.map_some']
  termination_by w lvl v rest fuel => sizeOf v
  decreasing_by
    all_goals simp
    all_goals omega

theorem parse_dumpElems : ∀ (w lvl : Nat) (x : Json) (xs : List Json)
    (tl rest : List Char) (fuel : Nat), needE x xs ≤ fuel → skipWs tl = ']' :: rest →
    numOk tl →
    parseElems fuel (dumpVal w lvl x ++ (dumpArrRest w lvl xs ++ tl)) =
      some (x :: xs, rest)
  | w, lvl, x, xs, tl, rest, 0, hf, htl, hnum =>
    absurd hf (by have h := one_le_needE x xs; omega)
  | w, lvl, x, [], tl, rest, f + 1, hf, htl, hnum => by
    rw [parseElems]
    rw [needE] at hf
    rw [dumpArrRest, List.nil_append]
    rw [parse_dumpVal w lvl x tl f (by omega) hnum]
    simp only [Option.some_bind]
    rw [htl]
    rw [if_neg (by simp only [List.head?_cons, Option.some_inj]; decide)]
    simp only [List.head?_cons]
    rw [if_pos trivial]
    simp only [List.tail_cons]
  | w, lvl, x, y :: ys, tl, rest, f + 1, hf, htl, hnum => by
    rw [parseElems]
    rw [needE] at hf
    rw [dumpArrRest]
    simp only [List.cons_append, List.append_assoc, List.singleton_append, List.nil_append]
    rw [parse_dumpVal w lvl x _ f (by omega)
      (numOk_cons _ (by decide) (by decide) (by decide) (by decide))]
    simp only [Option.some_bind]
    rw [skipWs_cons_of_not (by decide)]
    simp only [List.head?_cons]
    rw [if_pos trivial]
    simp only [List.tail_cons]
    rw [parseElems_congr _ (dumpVal w lvl y ++ (dumpArrRest w lvl ys ++ tl))
      (by rw [skipWs_cons_of_ws (by decide), skipWs_indent]) f]
    rw [parse_dumpElems w lvl y ys tl rest f (by omega) htl hnum]
    rw [Option.map_some']
  termination_by w lvl x xs tl rest fuel => sizeOf x + sizeOf xs
  decreasing_by
    all_goals simp
    all_goals omega

theorem parse_dumpMembers : ∀ (w lvl : Nat) (kv : String × Json)
    (kvs : List (String × Json)) (tl rest : List Char) (fuel : Nat),
    needM kv kvs ≤ fuel → skipWs tl = '}' :: rest → numOk tl →
    parseMembers fuel (dumpMember w lvl kv ++ (dumpObjRest w lvl kvs ++ tl)) =
      some (kv :: kvs, rest)
  | w, lvl, kv, kvs, tl, rest, 0, hf, htl, hnum =>
    absurd hf (by have h := one_le_needM kv kvs; omega)
  | w, lvl, (k, v), [], tl, rest, f + 1, hf, htl, hnum => by
    rw [parseMembers, dumpMember]
    simp only [List.cons_append, List.append_assoc, List.nil_append]
    rw [skipWs_cons_of_not (by decide)]
    simp only [List.head?_cons]
    rw [if_pos trivial]
    simp only [List.tail_cons]
    rw [parseStrBody_escString]
    simp only [Option.some_bind]
    rw [skipWs_cons_of_not (by decide)]
    simp only [List.head?_cons]
    rw [if_pos trivial]
    simp only [List.tail_cons]
    rw [parseVal_congr _ (dumpVal w lvl v ++ (dumpObjRest w lvl [] ++ tl))
      (by rw [skipWs_cons_of_ws (by decide)]) f]
    rw [dumpObjRest, List.nil_append]
    rw [parse_dumpVal w lvl v tl f (by rw [needM] at hf; omega) hnum]
    simp only [Option.some_bind]
    rw [htl]
    rw [if_neg (by simp only [List.head?_cons, Option.some_inj]; decide)]
    simp only [List.head?_cons]
    rw [if_pos trivial]
    simp only [List.tail_cons]
  | w, lvl, (k, v), kv' :: kvs', tl, rest, f + 1, hf, htl, hnum => by
    rw [parseMembers, dumpMember]
    simp only [List.cons_append, List.append_assoc, List.nil_append]
    rw [skipWs_cons_of_not (by decide)]
    simp only [List.head?_cons]
    rw [if_pos trivial]
    simp only [List.tail_cons]
    rw [parseStrBody_escString]
    simp only [Option.some_bind]
    rw [skipWs_cons_of_not (by decide)]
    simp only [List.head?_cons]
    rw [if_pos trivial]
    simp only [List.tail_cons]
    rw [parseVal_congr _ (dumpVal w lvl v ++ (dumpObjRest w lvl (kv' :: kvs') ++ tl))
      (by rw [skipWs_cons_of_ws (by decide)]) f]
    rw [dumpObjRest]
    simp only [List.cons_append, List.append_assoc, List.singleton_append, List.nil_append]
    rw [parse_dumpVal w lvl v _ f (by rw [needM] at hf; omega)
      (numOk_cons _ (by decide) (by decide) (by decide) (by decide))]
    simp only [Option.some_bind]
    rw [skipWs_cons_of_not (by decide)]
    simp only [List.head?_cons]
    rw [if_pos trivial]
    simp only [List.tail_cons]
    rw [parseMembers_congr _ (dumpMember w lvl kv' ++ (dumpObjRest w lvl kvs' ++ tl))
      (by rw [skipWs_cons_of_ws (by decide), skipWs_indent]) f]
    rw [parse_dumpMembers w lvl kv' kvs' tl rest f
      (by rw [needM] at hf; omega) htl hnum]
    rw [Option.map_some', string_mk_data]
  termination_by w lvl kv kvs tl rest fuel => sizeOf kv + sizeOf kvs
  decreasing_by
    all_goals simp
    all_goals (first
      | omega
      | (have h := sizeOf_snd_lt kv'; omega))

end

/-! ## Top-level round trip -/

theorem loads_dumps (w : Nat) (v : Json) : loads (dumps w v) = some v := by
  have h := parse_dumpVal w 0 v [] ((dumpVal w 0 v).length + 1)
    (le_trans (needV_le w 0 v) (by omega)) numOk_nil
  rw [List.append_nil] at h
  rw [loads]
  show (parseVal ((dumpVal w 0 v).length + 1) (dumpVal w 0 v)).bind _ = some v
  rw [h, Option.some_bind]
  rw [if_pos (show skipWs ((v, ([] : List Char))).2 = [] from rfl)]

theorem jsonToRecord_recordToJson (r : ResearchRecord) :
    jsonToRecord (recordToJson r) = some r := by
  rw [recordToJson, jsonToRecord, if_pos ⟨rfl, rfl, rfl⟩]

theorem decodeMembers_map (store : ResearchStore) :
    decodeMembers (store.map fun kv => (kv.1, recordToJson kv.2)) = some store := by
  induction store with
  | nil => rfl
  | cons kv rest ih =>
    obtain ⟨k, r⟩ := kv
    show decodeMembers ((k, recordToJson r) :: _) = _
    rw [decodeMembers, jsonToRecord_recordToJson, Option.some_bind, ih, Option.map_some']

theorem jsonToStore_storeToJson (store : ResearchStore) :
    jsonToStore (storeToJson store) = some store := by
  rw [storeToJson, jsonToStore]
  exact decodeMembers_map store

/-! ## Python dict operations -/

theorem pyDictInsert_fresh {α : Type} (m : List (String × α)) (k : String) (v : α)
    (h : pyLookup m k = none) : pyDictInsert m k v = m ++ [(k, v)] := by
  induction m with
  | nil => rfl
  | cons kv rest ih =>
    obtain ⟨k', v'⟩ := kv
    rw [pyLookup] at h
    by_cases hk : k' = k
    · rw [if_pos hk] at h
      exact Option.noConfusion h
    · rw [if_neg hk] at h
      rw [pyDictInsert, if_neg hk, ih h, List.cons_append]

theorem pyLookup_append_fresh {α : Type} (m : List (String × α)) (k : String) (v : α)
    (h : pyLookup m k = none) : pyLookup (m ++ [(k, v)]) k = some v := by
  induction m with
  | nil => rw [List.nil_append, pyLookup, if_pos rfl]
  | cons kv rest ih =>
    obtain ⟨k', v'⟩ := kv
    rw [pyLookup] at h
    by_cases hk : k' = k
    · rw [if_pos hk] at h
      exact Option.noConfusion h
    · rw [if_neg hk] at h
      rw [List.cons_append, pyLookup, if_neg hk, ih h]

/-! ## Timestamp shape -/

theorem isTimestampShape_format (d : DateTime) :
    isTimestampShape (formatTimestamp d) = true := by
  have h : ∀ n : Nat, (Nat.digitChar (n % 10)).isDigit = true :=
    fun n => digitChar_isDigit (Nat.mod_lt _ (by omega))
  simp [formatTimestamp, isTimestampShape, pad4, pad2, h]

/-! ## Character lowering -/

theorem toNat_ofNat_valid (n : Nat) (h : n.isValidChar) : (Char.ofNat n).toNat = n := by
  rw [Char.ofNat, dif_pos h]
  show (UInt32.toNat _) = n
  simp [Char.ofNatAux, UInt32.toNat, BitVec.toNat_ofNatLt]

theorem toLower_ne_space (c : Char) (h : c ≠ ' ') : c.toLower ≠ ' ' := by
  unfold Char.toLower
  by_cases hr : c.toNat ≥ 65 ∧ c.toNat ≤ 90
  · rw [if_pos hr]
    intro he
    have h2 : (Char.ofNat (c.toNat + 32)).toNat = (' ' : Char).toNat := by rw [he]
    rw [toNat_ofNat_valid _ (Or.inl (by omega))] at h2
    have h3 : (' ' : Char).toNat = 32 := rfl
    omega
  · rw [if_neg hr]
    exact h

/-! # The claims -/

/-- C1: a successful `conduct_research` call (API key present, library
returns `r`, timestamp key previously unused) appends exactly one record,
keyed by the freshly generated `YYYY-MM-DD HH:MM:SS` timestamp, storing
topic, focus areas and results verbatim, attempts a save, and returns
`(True, "Research completed successfully!")`. -/
theorem claim_C1 (st : SessionState) (topic focus_areas : String) (r : Json)
    (now : DateTime) (key : String) (hk : st.api_key = some key)
    (hfresh : pyLookup st.research_results (formatTimestamp now) = none) :
    conduct_research st topic focus_areas (.ok r) now =
      ({ st with research_results :=
          st.research_results ++ [(formatTimestamp now, ⟨topic, focus_areas, r⟩)] },
        ⟨[], true, some (topic, buildTaskNotes focus_areas), true⟩,
        (true, "Research completed successfully!")) ∧
    isTimestampShape (formatTimestamp now) = true ∧
    pyLookup (st.research_results ++ [(formatTimestamp now, ⟨topic, focus_areas, r⟩)])
      (formatTimestamp now) = some ⟨topic, focus_areas, r⟩ := by
  refine ⟨?_, isTimestampShape_format now, pyLookup_append_fresh _ _ _ hfresh⟩
  have hn : st.api_key.isNone = false := by rw [hk]; rfl
  simp only [conduct_research, hn, Bool.false_eq_true, if_false]
  rw [pyDictInsert_fresh _ _ _ hfresh]

/-- Witness for C1 at a concrete state, topic, stub result and clock. -/
theorem claim_C1_witness :
    conduct_research ⟨[], some "sk-test", "new_research", none⟩ "Graph Neural Networks"
      "scalability, robustness" (.ok (.obj [("accuracy", .num 9)])) ⟨2024, 1, 2, 3, 4, 5⟩ =
      (⟨[(formatTimestamp ⟨2024, 1, 2, 3, 4, 5⟩,
          ⟨"Graph Neural Networks", "scalability, robustness", .obj [("accuracy", .num 9)]⟩)],
          some "sk-test", "new_research", none⟩,
        ⟨[], true, some ("Graph Neural Networks", buildTaskNotes "scalability, robustness"), true⟩,
        (true, "Research completed successfully!")) ∧
    isTimestampShape (formatTimestamp ⟨2024, 1, 2, 3, 4, 5⟩) = true ∧
    pyLookup [(formatTimestamp ⟨2024, 1, 2, 3, 4, 5⟩,
        (⟨"Graph Neural Networks", "scalability, robustness",
          .obj [("accuracy", .num 9)]⟩ : ResearchRecord))]
      (formatTimestamp ⟨2024, 1, 2, 3, 4, 5⟩) =
      some ⟨"Graph Neural Networks", "scalability, robustness", .obj [("accuracy", .num 9)]⟩ :=
  claim_C1 ⟨[], some "sk-test", "new_research", none⟩ "Graph Neural Networks"
    "scalability, robustness" (.obj [("accuracy", .num 9)]) ⟨2024, 1, 2, 3, 4, 5⟩
    "sk-test" rfl rfl

/-- C2: without an API key, `conduct_research` shows an error, returns
`(False, "API key required")`, leaves the store untouched, does not invoke
the library and attempts no save. -/
theorem claim_C2 (st : SessionState) (topic focus_areas : String)
    (lab : Except String Json) (now : DateTime) (hk : st.api_key = none) :
    conduct_research st topic focus_areas lab now =
      (st, ⟨["Please enter your OpenAI API key in the sidebar first!"], false, none, false⟩,
        (false, "API key required")) := by
  have hn : st.api_key.isNone = true := by rw [hk]; rfl
  simp only [conduct_research, hn, if_true]

/-- Witness for C2 at a concrete keyless state. -/
theorem claim_C2_witness :
    conduct_research ⟨[], none, "new_research", none⟩ "t" "f" (.ok (.num 1))
      ⟨2024, 1, 2, 3, 4, 5⟩ =
      (⟨[], none, "new_research", none⟩,
        ⟨["Please enter your OpenAI API key in the sidebar first!"], false, none, false⟩,
        (false, "API key required")) :=
  claim_C2 ⟨[], none, "new_research", none⟩ "t" "f" (.ok (.num 1)) ⟨2024, 1, 2, 3, 4, 5⟩ rfl

/-- C3: if the library raises with message `e`, the exception is caught,
the call returns `(False, m)` with `m` containing `e`, and the store (the
whole state) is exactly what it was before the call. -/
theorem claim_C3 (st : SessionState) (topic focus_areas e : String) (now : DateTime)
    (key : String) (hk : st.api_key = some key) :
    conduct_research st topic focus_areas (.error e) now =
      (st, ⟨[], true, some (topic, buildTaskNotes focus_areas), false⟩,
        (false, "Error during research: " ++ e)) ∧
    (∃ p, "Error during research: " ++ e = p ++ e) := by
  refine ⟨?_, "Error during research: ", rfl⟩
  have hn : st.api_key.isNone = false := by rw [hk]; rfl
  simp only [conduct_research, hn, Bool.false_eq_true, if_false]

/-- Witness for C3 at a concrete state and exception message. -/
theorem claim_C3_witness :
    conduct_research ⟨[], some "sk-test", "new_research", none⟩ "t" "f"
      (.error "boom") ⟨2024, 1, 2, 3, 4, 5⟩ =
      (⟨[], some "sk-test", "new_research", none⟩,
        ⟨[], true, some ("t", buildTaskNotes "f"), false⟩,
        (false, "Error during research: " ++ "boom")) ∧
    (∃ p, "Error during research: " ++ "boom" = p ++ "boom") :=
  claim_C3 ⟨[], some "sk-test", "new_research", none⟩ "t" "f" "boom"
    ⟨2024, 1, 2, 3, 4, 5⟩ "sk-test" rfl

/-- C4: whenever the library is reached, the task notes passed to it have
`focus_areas` equal to the input split on commas with each token stripped,
and exactly the hard-coded experiment preferences. -/
theorem claim_C4 (st : SessionState) (topic focus_areas : String)
    (lab : Except String Json) (now : DateTime) (key : String)
    (hk : st.api_key = some key) :
    (conduct_research st topic focus_areas lab now).2.1.labArgs =
      some (topic,
        { focus_areas := (pySplit focus_areas ',').map pyStrip
          dataset_size := "small"
          model_complexity := "medium"
          evaluation_metrics := ["accuracy", "perplexity"] }) := by
  have hn : st.api_key.isNone = false := by rw [hk]; rfl
  cases lab with
  | error e => simp only [conduct_research, hn, Bool.false_eq_true, if_false]; rfl
  | ok r => simp only [conduct_research, hn, Bool.false_eq_true, if_false]; rfl

/-- Witness for C4 at the scenario input. -/
theorem claim_C4_witness :
    (conduct_research ⟨[], some "sk-test", "new_research", none⟩ "Graph Neural Networks"
      "scalability, robustness" (.ok (.num 1)) ⟨2024, 1, 2, 3, 4, 5⟩).2.1.labArgs =
      some ("Graph Neural Networks",
        { focus_areas := (pySplit "scalability, robustness" ',').map pyStrip
          dataset_size := "small"
          model_complexity := "medium"
          evaluation_metrics := ["accuracy", "perplexity"] }) :=
  claim_C4 ⟨[], some "sk-test", "new_research", none⟩ "Graph Neural Networks"
    "scalability, robustness" (.ok (.num 1)) ⟨2024, 1, 2, 3, 4, 5⟩ "sk-test" rfl

/-- C5: serializing any research store as `save_results` does and
re-parsing the file content as the initialization path does yields the
original mapping, both as the JSON object written to disk and, through the
record decoder, as the original store itself. -/
theorem claim_C5 (st : SessionState) :
    load_on_init (save_results st) = storeToJson st.research_results ∧
    jsonToStore (storeToJson st.research_results) = some st.research_results := by
  constructor
  · rw [save_results, load_on_init, loads_dumps, Option.getD_some]
  · exact jsonToStore_storeToJson _

/-- C6: the exported Markdown is the title line holding the topic, a
focus-areas section holding the stored focus string, and a results section
holding the results pretty-printed as JSON in a fenced code block; the file
name is `research_` ++ the topic lower-cased with spaces replaced by
underscores ++ `.md`. -/
theorem claim_C6 (r : ResearchRecord) :
    export_markdown r =
      "# Research Results: " ++ r.topic ++ "\n\n## Focus Areas\n" ++ r.focus_areas ++
        "\n\n## Results\n```json\n" ++ dumps 2 r.results ++ "\n```" ∧
    export_filename r =
      "research_" ++
        String.mk (r.topic.data.map fun c => if c = ' ' then '_' else c.toLower) ++ ".md" := by
  constructor
  · have hd : ∀ a b : String, (a ++ b).data = a.data ++ b.data := fun a b => rfl
    apply String.ext
    simp only [export_markdown, hd, List.append_assoc, List.cons_append, List.nil_append]
  · rw [export_filename, List.map_map]
    have hfun : ((fun c => if c = ' ' then '_' else c) ∘ Char.toLower) =
        fun c => if c = ' ' then '_' else c.toLower := by
      funext c
      by_cases hc : c = ' '
      · subst hc; rfl
      · show (if Char.toLower c = ' ' then '_' else Char.toLower c) = _
        rw [if_neg (toLower_ne_space c hc), if_neg hc]
    rw [hfun]

/-- C7: the Markdown export is a pure function of the record: two runs on
equal records produce byte-identical content and file name. -/
theorem claim_C7 (r1 r2 : ResearchRecord) (h : r1 = r2) :
    export_markdown r1 = export_markdown r2 ∧ export_filename r1 = export_filename r2 := by
  subst h
  exact ⟨rfl, rfl⟩

/-- Witness for C7 at a concrete record. -/
theorem claim_C7_witness :
    export_markdown ⟨"T", "F", .null⟩ = export_markdown ⟨"T", "F", .null⟩ ∧
    export_filename ⟨"T", "F", .null⟩ = export_filename ⟨"T", "F", .null⟩ :=
  claim_C7 ⟨"T", "F", .null⟩ ⟨"T", "F", .null⟩ rfl

/-- C8: a submission with an API key but an empty topic or empty focus
areas silently no-ops: no message is shown, no dispatch happens, and the
state is unchanged. -/
theorem claim_C8 (st : SessionState) (topic focus_areas : String)
    (lab : Except String Json) (now : DateTime) (key : String)
    (hk : st.api_key = some key) (he : topic = "" ∨ focus_areas = "") :
    research_form st topic focus_areas true lab now = (st, ⟨[], [], false⟩) := by
  have hn : st.api_key.isNone = false := by rw [hk]; rfl
  simp only [research_form, if_true, hn, Bool.false_eq_true, if_false]
  rw [if_neg]
  rintro ⟨ht, hf⟩
  rcases he with he | he
  · exact ht he
  · exact hf he

/-- Witness for C8 at an empty topic. -/
theorem claim_C8_witness :
    research_form ⟨[], some "sk-test", "new_research", none⟩ "" "areas" true
      (.ok (.num 1)) ⟨2024, 1, 2, 3, 4, 5⟩ =
      (⟨[], some "sk-test", "new_research", none⟩, ⟨[], [], false⟩) :=
  claim_C8 ⟨[], some "sk-test", "new_research", none⟩ "" "areas" (.ok (.num 1))
    ⟨2024, 1, 2, 3, 4, 5⟩ "sk-test" rfl (Or.inl rfl)

/-- C9: the bytes written by `save_results` are a function of the research
store alone: two sessions with equal stores but different API keys write
identical file content. -/
theorem claim_C9 (st1 st2 : SessionState)
    (hstore : st1.research_results = st2.research_results)
    (hkey : st1.api_key ≠ st2.api_key) :
    save_results st1 = save_results st2 := by
  rw [save_results, save_results, hstore]

/-- Witness for C9: equal stores, one session with a key and one without. -/
theorem claim_C9_witness :
    save_results ⟨[("2024-01-02 03:04:05", ⟨"T", "F", .num 1⟩)], some "sk-secret",
      "new_research", none⟩ =
    save_results ⟨[("2024-01-02 03:04:05", ⟨"T", "F", .num 1⟩)], none,
      "view_research", some "2024-01-02 03:04:05"⟩ :=
  claim_C9 _ _ rfl (by simp)

/-- C10: when a selected timestamp is present in the store, the viewer
renders that record's topic, focus areas and results; the missing-key
error branch is not taken. -/
theorem claim_C10 (st : SessionState) (ts : String) (r : ResearchRecord)
    (hsel : st.selected_research = some ts)
    (hlook : pyLookup st.research_results ts = some r) :
    view_research st = .rendered ("Research Results: " ++ r.topic) r.focus_areas r.results := by
  simp only [view_research, hsel, hlook]

/-- Witness for C10 at a one-record store. -/
theorem claim_C10_witness :
    view_research ⟨[("2024-01-02 03:04:05", ⟨"T", "F", .num 1⟩)], none,
      "view_research", some "2024-01-02 03:04:05"⟩ =
      .rendered ("Research Results: " ++ "T") "F" (.num 1) :=
  claim_C10 _ "2024-01-02 03:04:05" ⟨"T", "F", .num 1⟩ rfl rfl

end AgentLab
